import Mathlib

/-!
Verification of the incremental decode-and-stream engine of the
mlc-llm chat runtime, as declared in `src/cpp/llm_chat.h`.

The header declares `GetDeltaMessage` and `CreateChatModule`; the bodies of
the functions live outside the provided sources, so the components they
implement (TextDiffer, StopCriteria, DecodeSession, ConversationState) are
modelled here from the specification.  Strings are embedded as `List Char`,
token ids as `Nat`.
-/

namespace MlcLlm

/-- Modelled from the spec: the longest-common-prefix computation inside
TextDiffer (§4.1), whose implementation is missing from `src/`.  Walks both
strings from the front and counts the agreeing characters. -/
def lcpLen : List Char → List Char → Nat
  | a :: as, b :: bs => if a = b then lcpLen as bs + 1 else 0
  | _, _ => 0

/-- Modelled from the spec: `TextDiffer.ComputeDelta(previous, current)`
(§4.1), whose implementation is missing from `src/`.  Returns the suffix of
`current` starting at the longest common prefix length: in the extension case
this is the simple append delta, in the divergence case the correcting
delta. -/
def ComputeDelta (previous current : List Char) : List Char :=
  current.drop (lcpLen previous current)

/-- Modelled from the spec: `GetDeltaMessage` (declared at
`src/cpp/llm_chat.h:25`, body missing from `src/`), the standalone utility
wrapping TextDiffer (§6).  It takes both strings by value, as in the C++
declaration. -/
def GetDeltaMessage (curr_message new_message : List Char) : List Char :=
  ComputeDelta curr_message new_message

/-- Modelled from the spec: a bounds-checked rendering of `GetDeltaMessage`
in which the substring extraction, like `std::string::substr`, is fallible
when the start index exceeds the string length (§4.1 claims this never
happens).  Returns `none` exactly when the extraction would be out of
range. -/
def GetDeltaMessageChecked (curr_message new_message : List Char) :
    Option (List Char) :=
  let k := lcpLen curr_message new_message
  if k ≤ new_message.length then some (new_message.drop k) else none

theorem lcpLen_le_left (a b : List Char) : lcpLen a b ≤ a.length := by
  induction a generalizing b with
  | nil => simp [lcpLen]
  | cons x as ih =>
    cases b with
    | nil => simp [lcpLen]
    | cons y bs =>
      by_cases hxy : x = y
      · simp only [lcpLen, if_pos hxy, List.length_cons]
        exact Nat.succ_le_succ (ih bs)
      · simp [lcpLen, if_neg hxy]

theorem lcpLen_le_right (a b : List Char) : lcpLen a b ≤ b.length := by
  induction a generalizing b with
  | nil => simp [lcpLen]
  | cons x as ih =>
    cases b with
    | nil => simp [lcpLen]
    | cons y bs =>
      by_cases hxy : x = y
      · simp only [lcpLen, if_pos hxy, List.length_cons]
        exact Nat.succ_le_succ (ih bs)
      · simp [lcpLen, if_neg hxy]

theorem lcpLen_self (a : List Char) : lcpLen a a = a.length := by
  induction a with
  | nil => rfl
  | cons x as ih => simp [lcpLen, ih]

theorem lcpLen_append (a t : List Char) : lcpLen a (a ++ t) = a.length := by
  induction a with
  | nil => cases t <;> rfl
  | cons x as ih => simp [lcpLen, ih]

theorem take_lcpLen_eq (a b : List Char) :
    a.take (lcpLen a b) = b.take (lcpLen a b) := by
  induction a generalizing b with
  | nil => simp [lcpLen]
  | cons x as ih =>
    cases b with
    | nil => simp [lcpLen]
    | cons y bs =>
      by_cases hxy : x = y
      · simp [lcpLen, if_pos hxy, hxy, ih bs]
      · simp [lcpLen, if_neg hxy]

theorem le_lcpLen_of_take_eq (a b : List Char) (k : Nat)
    (hka : k ≤ a.length) (hkb : k ≤ b.length)
    (htake : a.take k = b.take k) : k ≤ lcpLen a b := by
  induction a generalizing b k with
  | nil =>
    simp only [List.length_nil, Nat.le_zero] at hka
    simp [hka]
  | cons x as ih =>
    cases k with
    | zero => exact Nat.zero_le _
    | succ k =>
      cases b with
      | nil => simp at hkb
      | cons y bs =>
        simp only [List.take_succ_cons, List.cons.injEq] at htake
        obtain ⟨hxy, htk⟩ := htake
        simp only [List.length_cons, Nat.succ_le_succ_iff] at hka hkb
        simp only [lcpLen, if_pos hxy]
        exact Nat.succ_le_succ (ih bs k hka hkb htk)

/-- C1: for every pair of strings `a`, `b` where `b` starts with `a`,
`GetDeltaMessage(a, b)` returns exactly the suffix of `b` beginning at index
`len(a)`, so that `a` concatenated with the returned delta equals `b`. -/
theorem getDeltaMessage_extension (a b : List Char) (h : ∃ t, a ++ t = b) :
    GetDeltaMessage a b = b.drop a.length ∧ a ++ GetDeltaMessage a b = b := by
  obtain ⟨t, rfl⟩ := h
  constructor
  · simp [GetDeltaMessage, ComputeDelta, lcpLen_append]
  · simp [GetDeltaMessage, ComputeDelta, lcpLen_append]

/-- Witness for C1 at `a = "ab"`, `b = "abc"`. -/
theorem getDeltaMessage_extension_witness :
    GetDeltaMessage ("ab".toList) ("abc".toList) =
      ("abc".toList).drop (("ab".toList).length) ∧
    "ab".toList ++ GetDeltaMessage ("ab".toList) ("abc".toList) =
      "abc".toList :=
  getDeltaMessage_extension ("ab".toList) ("abc".toList) ⟨"c".toList, by decide⟩

/-- C3: for every string `s`, `GetDeltaMessage(s, s)` returns the empty
string. -/
theorem getDeltaMessage_self (s : List Char) : GetDeltaMessage s s = [] := by
  simp [GetDeltaMessage, ComputeDelta, lcpLen_self]

/-- C4: `GetDeltaMessage` is total over all pairs of strings: the
bounds-checked model never takes the out-of-range branch, so every pair of
strings, the empty ones included, yields a string result and no failure. -/
theorem getDeltaMessage_total (a b : List Char) :
    GetDeltaMessageChecked a b = some (GetDeltaMessage a b) := by
  simp [GetDeltaMessageChecked, GetDeltaMessage, ComputeDelta,
    lcpLen_le_right a b]

/-- A length `k` such that `a` and `b` agree on their first `k` characters:
the spec's notion of a common prefix length (§4.1). -/
def IsCommonStartLen (k : Nat) (a b : List Char) : Prop :=
  k ≤ a.length ∧ k ≤ b.length ∧ a.take k = b.take k

theorem isCommonStartLen_lcpLen (a b : List Char) :
    IsCommonStartLen (lcpLen a b) a b :=
  ⟨lcpLen_le_left a b, lcpLen_le_right a b, take_lcpLen_eq a b⟩

theorem eq_lcpLen_of_greatest (a b : List Char) (k : Nat)
    (h1 : IsCommonStartLen k a b)
    (h2 : ∀ j, IsCommonStartLen j a b → j ≤ k) : k = lcpLen a b := by
  obtain ⟨hka, hkb, htake⟩ := h1
  exact Nat.le_antisymm (le_lcpLen_of_take_eq a b k hka hkb htake)
    (h2 _ (isCommonStartLen_lcpLen a b))

/-- C2: whenever the longest common prefix length `k` of `previous` and
`current` is strictly below `len(previous)` (retokenization diverged before
the end of `previous`), `GetDeltaMessage(previous, current)` returns the
suffix of `current` starting at `k`; in particular
`GetDeltaMessage("abc", "abd") = "d"`. -/
theorem getDeltaMessage_divergence (previous current : List Char) (k : Nat)
    (h1 : IsCommonStartLen k previous current)
    (h2 : ∀ j, IsCommonStartLen j previous current → j ≤ k)
    (h3 : k < previous.length) :
    GetDeltaMessage previous current = current.drop k ∧
    GetDeltaMessage ("abc".toList) ("abd".toList) = "d".toList := by
  refine ⟨?_, by decide⟩
  have hk : k = lcpLen previous current := eq_lcpLen_of_greatest _ _ k h1 h2
  simp [GetDeltaMessage, ComputeDelta, hk]

/-- Witness for C2 at `previous = "abc"`, `current = "abd"`, `k = 2`. -/
theorem getDeltaMessage_divergence_witness :
    GetDeltaMessage ("abc".toList) ("abd".toList) = ("abd".toList).drop 2 ∧
    GetDeltaMessage ("abc".toList) ("abd".toList) = "d".toList := by
  refine getDeltaMessage_divergence ("abc".toList) ("abd".toList) 2
    (by refine ⟨by decide, by decide, by decide⟩) ?_ (by decide)
  intro j hj
  obtain ⟨hja, hjb, hjt⟩ := hj
  have hlen : ("abc".toList).length = 3 := by decide
  rw [hlen] at hja
  by_contra hlt
  push_neg at hlt
  have hj3 : j = 3 := by omega
  subst hj3
  exact absurd hjt (by decide)

/-- The three verdicts of `StopCriteria.ShouldStop` (§4.2). -/
inductive StopResult where
  | Continue : StopResult
  | StopAndTrim : Nat → StopResult
  | StopClean : StopResult
deriving DecidableEq

/-- Modelled from the spec: the per-session `StopCondition` record (§3):
stop token ids, stop substrings and an optional max-length, immutable once
configured.  The configuration type is missing from `src/`. -/
structure StopCondition where
  stopTokenIds : List Nat
  stopStrings : List (List Char)
  maxLength : Option Nat
deriving DecidableEq

/-- Whether `text` ends with `s`, the suffix test the stop-substring check
performs. -/
def endsWith (text s : List Char) : Bool :=
  decide (s.length ≤ text.length) &&
    decide (text.drop (text.length - s.length) = s)

/-- Whether the most recently generated token is a configured stop token
id. -/
def lastIsStopToken (cond : StopCondition) (tokenSeq : List Nat) : Bool :=
  match tokenSeq.getLast? with
  | some t => decide (t ∈ cond.stopTokenIds)
  | none => false

/-- First configured stop substring that `text` ends with, returning its
length (the trim length). -/
def findStopString (stops : List (List Char)) (text : List Char) :
    Option Nat :=
  match stops with
  | [] => none
  | s :: rest => if endsWith text s then some s.length else
      findStopString rest text

/-- Whether the count of tokens generated in this call has reached the
configured max-length. -/
def reachedMaxLength (cond : StopCondition) (tokensGenerated : Nat) : Bool :=
  match cond.maxLength with
  | some m => decide (m ≤ tokensGenerated)
  | none => false

/-- Modelled from the spec: `StopCriteria.ShouldStop(tokenSeq, decodedText,
tokensGeneratedThisCall)` (§4.2), whose implementation is missing from
`src/`.  Stop token ⇒ `StopClean`; stop substring ⇒ `StopAndTrim n`; the
length limit forces `Continue` to `StopClean`. -/
def ShouldStop (cond : StopCondition) (tokenSeq : List Nat)
    (decodedText : List Char) (tokensGeneratedThisCall : Nat) : StopResult :=
  if lastIsStopToken cond tokenSeq then .StopClean
  else
    match findStopString cond.stopStrings decodedText with
    | some n => .StopAndTrim n
    | none =>
        if reachedMaxLength cond tokensGeneratedThisCall then .StopClean
        else .Continue

/-- Stop reasons distinguished for reporting (§4.2, §7). -/
inductive StopReason where
  | StoppedByToken : StopReason
  | StoppedBySubstring : StopReason
  | LengthLimitReached : StopReason
deriving DecidableEq

/-- Modelled from the spec: the reported stop reason of a step (§4.2, §7),
distinguishing the length-limit stop from substring/token stops; the
reporting code is missing from `src/`. -/
def classifyStop (cond : StopCondition) (tokenSeq : List Nat)
    (decodedText : List Char) (tokensGeneratedThisCall : Nat) :
    Option StopReason :=
  if lastIsStopToken cond tokenSeq then some .StoppedByToken
  else
    match findStopString cond.stopStrings decodedText with
    | some _ => some .StoppedBySubstring
    | none =>
        if reachedMaxLength cond tokensGeneratedThisCall then
          some .LengthLimitReached
        else none

/-- The error kinds of §7. -/
inductive ErrorKind where
  | PromptTooLong : ErrorKind
  | BackendError : ErrorKind
  | TokenizerError : ErrorKind
deriving DecidableEq

/-- Outcome of a `Generate` call: a normal stop reason or an error (§7). -/
inductive CallOutcome where
  | stopped : StopReason → CallOutcome
  | failed : ErrorKind → CallOutcome
deriving DecidableEq

/-- Whether a call outcome is an error (§7: `LengthLimitReached` is not). -/
def isError : CallOutcome → Bool
  | .stopped _ => false
  | .failed _ => true

/-- Modelled from the spec: trimming the final emitted text by the returned
trim length (§4.4 Finalizing); the finalization code is missing from
`src/`. -/
def trimFinal (text : List Char) (n : Nat) : List Char :=
  text.take (text.length - n)

theorem endsWith_iff (text s : List Char) :
    endsWith text s = true ↔ ∃ p, p ++ s = text := by
  constructor
  · intro h
    simp only [endsWith, Bool.and_eq_true, decide_eq_true_eq] at h
    exact ⟨text.take (text.length - s.length), by
      conv_rhs => rw [← List.take_append_drop (text.length - s.length) text]
      rw [h.2]⟩
  · rintro ⟨p, rfl⟩
    simp only [endsWith, Bool.and_eq_true, decide_eq_true_eq]
    refine ⟨by simp, ?_⟩
    rw [List.length_append, Nat.add_sub_cancel, List.drop_left]

theorem trimFinal_append (p s : List Char) :
    trimFinal (p ++ s) s.length = p := by
  simp only [trimFinal, List.length_append, Nat.add_sub_cancel]
  exact List.take_left p s

theorem findStopString_some (stops : List (List Char)) (text : List Char)
    (n : Nat) (h : findStopString stops text = some n) :
    ∃ s, s ∈ stops ∧ endsWith text s = true ∧ s.length = n := by
  induction stops with
  | nil => simp [findStopString] at h
  | cons s rest ih =>
    by_cases hs : endsWith text s
    · simp only [findStopString, if_pos hs, Option.some.injEq] at h
      exact ⟨s, List.mem_cons_self s rest, hs, h⟩
    · simp only [findStopString, if_neg hs] at h
      obtain ⟨s', hmem, hend, hlen⟩ := ih h
      exact ⟨s', List.mem_cons_of_mem s hmem, hend, hlen⟩

/-- C5: whenever the decoded text ends with a configured stop substring of
length `n` (as found by the stop-substring scan) and no stop token fired,
`ShouldStop` returns `StopAndTrim n`, and trimming `n` characters removes
exactly that stop substring from the end of the final emitted text. -/
theorem shouldStop_stop_substring (cond : StopCondition)
    (tokenSeq : List Nat) (text : List Char) (g n : Nat)
    (hTok : lastIsStopToken cond tokenSeq = false)
    (hFind : findStopString cond.stopStrings text = some n) :
    ShouldStop cond tokenSeq text g = .StopAndTrim n ∧
    ∃ s, s ∈ cond.stopStrings ∧ s.length = n ∧ trimFinal text n ++ s = text := by
  constructor
  · simp [ShouldStop, hTok, hFind]
  · obtain ⟨s, hmem, hend, hlen⟩ := findStopString_some _ _ _ hFind
    obtain ⟨p, rfl⟩ := (endsWith_iff text s).mp hend
    exact ⟨s, hmem, hlen, by rw [← hlen, trimFinal_append]⟩

/-- Witness for C5: stop string `"</s>"`, decoded text `"...answer</s>"`,
trim length `4`. -/
theorem shouldStop_stop_substring_witness :
    ShouldStop ⟨[], ["</s>".toList], none⟩ [] ("...answer</s>".toList) 0 =
      .StopAndTrim 4 ∧
    ∃ s, s ∈ [ "</s>".toList ] ∧ s.length = 4 ∧
      trimFinal ("...answer</s>".toList) 4 ++ s = "...answer</s>".toList :=
  shouldStop_stop_substring ⟨[], ["</s>".toList], none⟩ [] _ 0 4
    (by decide) (by decide)

/-- The states of the DecodeSession state machine (§4.4). -/
inductive Phase where
  | Idle : Phase
  | Prefilling : Phase
  | Decoding : Phase
  | Finalizing : Phase
deriving DecidableEq

/-- Conversation roles (§3). -/
inductive Role where
  | User : Role
  | Assistant : Role
  | System : Role
deriving DecidableEq

/-- A conversation turn: role plus content (§3). -/
structure ConversationTurn where
  role : Role
  content : List Char
deriving DecidableEq

/-- Modelled from the spec: the state owned by DecodeSession and
ConversationState (§3, §4.3, §4.4) — phase, TokenSequence, previous
DecodedText, turn history, SessionHandle validity and the per-call token
count.  The session classes are missing from `src/`. -/
structure SessionState where
  phase : Phase
  tokens : List Nat
  prevText : List Char
  history : List ConversationTurn
  cacheValid : Bool
  tokensGenerated : Nat
deriving DecidableEq

/-- Result of one decode-loop iteration: the successor state, the delta
yielded to the caller (if any) and the reported stop reason (if the step
stopped). -/
structure StepOutput where
  state : SessionState
  delta : Option (List Char)
  stopped : Option StopReason
deriving DecidableEq

/-- Modelled from the spec: one iteration of the `Decoding` loop (§4.4),
missing from `src/`.  Decode the TokenSequence, run StopCriteria, then
either stop — trimming per the verdict, excluding a stop token from the
final decode, and appending the finalized assistant turn — or yield the
TextDiffer delta, sample the next token and append it.  The tokenizer
`decode` and the sampler `sample` are the external collaborators of §6. -/
def decodeStep (decode : List Nat → List Char) (sample : List Nat → Nat)
    (cond : StopCondition) (st : SessionState) : StepOutput :=
  let text := decode st.tokens
  match ShouldStop cond st.tokens text st.tokensGenerated with
  | .Continue =>
      let d := GetDeltaMessage st.prevText text
      let t := sample st.tokens
      { state := { st with
          tokens := st.tokens ++ [t]
          prevText := text
          tokensGenerated := st.tokensGenerated + 1 }
        delta := some d
        stopped := none }
  | .StopClean =>
      let finalText :=
        if lastIsStopToken cond st.tokens then decode st.tokens.dropLast
        else text
      { state := { st with
          phase := .Finalizing
          history := st.history ++ [⟨.Assistant, finalText⟩] }
        delta := none
        stopped := classifyStop cond st.tokens text st.tokensGenerated }
  | .StopAndTrim n =>
      { state := { st with
          phase := .Finalizing
          history := st.history ++ [⟨.Assistant, trimFinal text n⟩] }
        delta := none
        stopped := some .StoppedBySubstring }

/-- Modelled from the spec: `Reset` (§4.4, §5), missing from `src/`.
Reachable from any state; forces `Idle`, drops the in-progress turn, clears
the history and invalidates the SessionHandle/cache. -/
def resetSession (_st : SessionState) : SessionState :=
  { phase := .Idle, tokens := [], prevText := [], history := [],
    cacheValid := false, tokensGenerated := 0 }

/-- Modelled from the spec: the start of a `Generate(userMessage)` call
(§4.5), missing from `src/`: append the User turn and enter `Prefilling`
with a fresh per-call token count. -/
def startGenerate (userMessage : List Char) (st : SessionState) :
    SessionState :=
  { st with
    phase := .Prefilling
    history := st.history ++ [⟨.User, userMessage⟩]
    tokensGenerated := 0 }

/-- C6: whenever the most recently generated token is a configured stop
token id, `ShouldStop` returns `StopClean`, and the finalized assistant
content decodes the TokenSequence without that stop token, so the stop token
is excluded from the emitted output text. -/
theorem shouldStop_stop_token (decode : List Nat → List Char)
    (sample : List Nat → Nat) (cond : StopCondition) (st : SessionState)
    (t : Nat) (hLast : st.tokens.getLast? = some t)
    (hMem : t ∈ cond.stopTokenIds) :
    ShouldStop cond st.tokens (decode st.tokens) st.tokensGenerated =
      .StopClean ∧
    (decodeStep decode sample cond st).state.history =
      st.history ++ [⟨Role.Assistant, decode st.tokens.dropLast⟩] := by
  have hTok : lastIsStopToken cond st.tokens = true := by
    simp [lastIsStopToken, hLast, hMem]
  have hstop : ShouldStop cond st.tokens (decode st.tokens)
      st.tokensGenerated = .StopClean := by
    simp [ShouldStop, hTok]
  exact ⟨hstop, by simp [decodeStep, hstop, hTok]⟩

/-- Witness for C6: token sequence `[1, 2]` with configured stop token
`2`. -/
theorem shouldStop_stop_token_witness :
    ShouldStop ⟨[2], [], none⟩ [1, 2]
      ((fun ts => if ts = [1] then "a".toList else "a!".toList) [1, 2]) 1 =
      .StopClean ∧
    (decodeStep (fun ts => if ts = [1] then "a".toList else "a!".toList)
      (fun _ => 0) ⟨[2], [], none⟩
      ⟨Phase.Decoding, [1, 2], "a".toList, [], true, 1⟩).state.history =
      [] ++ [⟨Role.Assistant,
        (fun ts => if ts = [1] then "a".toList else "a!".toList)
          ([1, 2] : List Nat).dropLast⟩] :=
  shouldStop_stop_token (fun ts => if ts = [1] then "a".toList else "a!".toList)
    (fun _ => 0) ⟨[2], [], none⟩
    ⟨Phase.Decoding, [1, 2], "a".toList, [], true, 1⟩ 2 (by decide) (by decide)

/-- C7: when the per-call token count reaches the configured max-length and
neither a stop token nor a stop substring fired, `Continue` is forced to
`StopClean`, the stop is reported as `LengthLimitReached` — distinct from
the token and substring stop reasons — and it is not an error. -/
theorem lengthLimit_stop (cond : StopCondition) (tokenSeq : List Nat)
    (text : List Char) (g m : Nat)
    (hTok : lastIsStopToken cond tokenSeq = false)
    (hStr : findStopString cond.stopStrings text = none)
    (hMax : cond.maxLength = some m) (hReached : m ≤ g) :
    ShouldStop cond tokenSeq text g = .StopClean ∧
    classifyStop cond tokenSeq text g = some .LengthLimitReached ∧
    StopReason.LengthLimitReached ≠ StopReason.StoppedByToken ∧
    StopReason.LengthLimitReached ≠ StopReason.StoppedBySubstring ∧
    isError (CallOutcome.stopped StopReason.LengthLimitReached) = false := by
  have hLim : reachedMaxLength cond g = true := by
    simp [reachedMaxLength, hMax, hReached]
  refine ⟨?_, ?_, by decide, by decide, rfl⟩
  · simp [ShouldStop, hTok, hStr, hLim]
  · simp [classifyStop, hTok, hStr, hLim]

/-- Witness for C7: max-length `5` reached after `5` generated tokens, no
stop token or stop substring configured. -/
theorem lengthLimit_stop_witness :
    ShouldStop ⟨[], [], some 5⟩ [1] ("x".toList) 5 = .StopClean ∧
    classifyStop ⟨[], [], some 5⟩ [1] ("x".toList) 5 =
      some .LengthLimitReached ∧
    StopReason.LengthLimitReached ≠ StopReason.StoppedByToken ∧
    StopReason.LengthLimitReached ≠ StopReason.StoppedBySubstring ∧
    isError (CallOutcome.stopped StopReason.LengthLimitReached) = false :=
  lengthLimit_stop ⟨[], [], some 5⟩ [1] ("x".toList) 5 5
    (by decide) (by decide) rfl (by decide)

/-- C8: every step of the decode loop leaves the TokenSequence length
greater than or equal to its previous length — tokens are only appended,
never removed, within a generation call. -/
theorem decodeStep_tokens_monotone (decode : List Nat → List Char)
    (sample : List Nat → Nat) (cond : StopCondition) (st : SessionState) :
    st.tokens.length ≤ (decodeStep decode sample cond st).state.tokens.length := by
  rcases hs : ShouldStop cond st.tokens (decode st.tokens) st.tokensGenerated
      with _ | n | _ <;>
    simp [decodeStep, hs]

/-- C9: if `Reset` is issued during `Decoding`, the in-progress turn is not
appended — the history after reset is empty — the cache/SessionHandle is
invalidated, and a subsequent `Generate` call starts from the empty history,
independent of the prior partial state. -/
theorem reset_mid_decoding (st st' : SessionState) (msg : List Char)
    (h : st.phase = Phase.Decoding) :
    (resetSession st).history = [] ∧
    (resetSession st).cacheValid = false ∧
    startGenerate msg (resetSession st) =
      startGenerate msg (resetSession st') := by
  exact ⟨rfl, rfl, rfl⟩

/-- Witness for C9: reset from a mid-decoding state holding two tokens and a
partial turn in flight, compared against a different prior state. -/
theorem reset_mid_decoding_witness :
    (resetSession ⟨Phase.Decoding, [1, 2], "He".toList,
      [⟨Role.User, "Hi".toList⟩], true, 2⟩).history = [] ∧
    (resetSession ⟨Phase.Decoding, [1, 2], "He".toList,
      [⟨Role.User, "Hi".toList⟩], true, 2⟩).cacheValid = false ∧
    startGenerate ("Hello".toList) (resetSession ⟨Phase.Decoding, [1, 2],
      "He".toList, [⟨Role.User, "Hi".toList⟩], true, 2⟩) =
      startGenerate ("Hello".toList)
        (resetSession ⟨Phase.Idle, [], [], [], true, 0⟩) :=
  reset_mid_decoding ⟨Phase.Decoding, [1, 2], "He".toList,
    [⟨Role.User, "Hi".toList⟩], true, 2⟩
    ⟨Phase.Idle, [], [], [], true, 0⟩ ("Hello".toList) rfl

/-- C10: `GetDeltaMessage` is deterministic: its result is a function of the
two string arguments alone, so equal arguments always yield equal results. -/
theorem getDeltaMessage_deterministic (a b a' b' : List Char)
    (h1 : a = a') (h2 : b = b') :
    GetDeltaMessage a b = GetDeltaMessage a' b' := by
  rw [h1, h2]

/-- Witness for C10 at `a = "ab"`, `b = "abc"`. -/
theorem getDeltaMessage_deterministic_witness :
    GetDeltaMessage ("ab".toList) ("abc".toList) =
      GetDeltaMessage ("ab".toList) ("abc".toList) :=
  getDeltaMessage_deterministic ("ab".toList) ("abc".toList)
    ("ab".toList) ("abc".toList) rfl rfl

end MlcLlm
